import Mathlib

/-!
# Verification of the draft-js-mod text-model core

Shallow embedding of the repository's paste-processing pipeline
(`DraftPasteProcessor`), the `DraftEditorBlock` component logic
(`shouldComponentUpdate`, `componentDidMount` scroll computation,
`_renderChildren`) and the `editOnDragOver` handler, together with proofs
of the specification's claims about them.

External modules that the sources `require` but that are not part of the
provided sources (`generateRandomKey`, `sanitizeDraftText`,
`convertFromHTMLtoContentBlocks`, `getSafeBodyFromHTML`, the Unicode-bidi
helpers) are modelled as explicit function parameters: the embedding is
universally quantified over their behaviour.  The impure key generator
`generateRandomKey` becomes a stream `keys : Nat → String` giving the
result of its `i`-th call inside one invocation of `processText`.
-/

namespace DraftJS

/-- Character metadata attached to one character of block text: an inline
style set and an optional entity key (the `CharacterMetadata` record). -/
structure CharacterMetadata where
  style : List String
  entity : Option String
deriving DecidableEq, Repr, Inhabited

/-- A content block record.  `ContentBlock` (flat mode) carries `key`,
`type`, `text` and `characterList`; `ContentBlockNode` (experimental tree
mode) additionally carries the sibling links.  We use one record with
optional sibling fields, which flat mode simply never sets. -/
structure Block where
  key : String
  type : String
  text : String
  characterList : List CharacterMetadata
  prevSibling : Option String := none
  nextSibling : Option String := none
deriving DecidableEq, Repr, Inhabited

/-- `block.merge({nextSibling: key})` on an Immutable record: returns a new
record equal to `b` except for the `nextSibling` field. -/
def mergeNextSibling (b : Block) (k : String) : Block :=
  { b with nextSibling := some k }

/-- The block record built from `blockNodeConfig` at one step of
`processText` (before the tree-mode `prevSibling` extension). -/
def baseConfig (key ty textLine : String) (character : CharacterMetadata) : Block :=
  { key := key
    type := ty
    text := textLine
    characterList := List.replicate textLine.length character }

/-- The body of the `reduce` in `DraftPasteProcessor.processText`:
`lines` are the remaining text blocks, `index` the current reduce index and
`acc` the accumulator array.  `tree` is the
`DraftFeatureFlags.draft_tree_data_support` flag, `sanitize` models
`sanitizeDraftText` and `keys index` the value of the `generateRandomKey()`
call made at reduce index `index`. -/
def processTextLoop (tree : Bool) (sanitize : String → String)
    (keys : Nat → String) (character : CharacterMetadata) (ty : String) :
    List String → Nat → List Block → List Block
  | [], _, acc => acc
  | line :: rest, index, acc =>
    let textLine := sanitize line
    let key := keys index
    let blockNodeConfig := baseConfig key ty textLine character
    let acc' :=
      if tree = true ∧ index ≠ 0 then
        let prevSiblingIndex := index - 1
        -- `acc[prevSiblingIndex]` always exists: the reduce maintains
        -- `acc.length = index`, proved below.
        match acc[prevSiblingIndex]? with
        | some prev =>
          let previousBlock := mergeNextSibling prev key
          (acc.set prevSiblingIndex previousBlock) ++
            [{ blockNodeConfig with prevSibling := some previousBlock.key }]
        | none => acc ++ [blockNodeConfig]
      else
        acc ++ [blockNodeConfig]
    processTextLoop tree sanitize keys character ty rest (index + 1) acc'

/-- `DraftPasteProcessor.processText(textBlocks, character, type)`. -/
def processText (tree : Bool) (sanitize : String → String)
    (keys : Nat → String) (textBlocks : List String)
    (character : CharacterMetadata) (ty : String) : List Block :=
  processTextLoop tree sanitize keys character ty textBlocks 0 []

/-- Closed form of the reduce: the blocks produced for the lines `lines`
starting at reduce index `index`, with all sibling links already in their
final state. -/
def newBlocks (tree : Bool) (sanitize : String → String)
    (keys : Nat → String) (character : CharacterMetadata) (ty : String) :
    List String → Nat → List Block
  | [], _ => []
  | line :: rest, index =>
    { baseConfig (keys index) ty (sanitize line) character with
      prevSibling := if tree = true ∧ index ≠ 0 then some (keys (index - 1)) else none
      nextSibling := if tree = true ∧ rest ≠ [] then some (keys (index + 1)) else none }
      :: newBlocks tree sanitize keys character ty rest (index + 1)

/-- Replace the last block of `acc` by the same record with its
`nextSibling` set to `k` (the net effect of the tree-mode update step on
the accumulator so far). -/
def setLastNext (acc : List Block) (k : String) : List Block :=
  match acc.getLast? with
  | some b => acc.dropLast ++ [mergeNextSibling b k]
  | none => acc

theorem set_last_eq {α : Type} (l : List α) (x : α) (h : l ≠ []) :
    l.set (l.length - 1) x = l.dropLast ++ [x] := by
  induction l with
  | nil => exact absurd rfl h
  | cons a t ih =>
    cases t with
    | nil => rfl
    | cons b t' =>
      simp only [List.length_cons, List.set, List.dropLast_cons₂, List.cons_append]
      exact congrArg (a :: ·) (ih (by simp))

theorem setLastNext_concat (A : List Block) (b : Block) (k : String) :
    setLastNext (A ++ [b]) k = A ++ [mergeNextSibling b k] := by
  simp [setLastNext, List.getLast?_concat, List.dropLast_concat]

theorem setLastNext_singleton (b : Block) (k : String) :
    setLastNext [b] k = [mergeNextSibling b k] := by
  simp [setLastNext]

theorem setLastNext_length (l : List Block) (k : String) :
    (setLastNext l k).length = l.length := by
  cases l using List.reverseRecOn with
  | nil => rfl
  | append_singleton A b => simp [setLastNext_concat]

theorem setLastNext_getLast? (l : List Block) (k : String) (h : l ≠ []) :
    (setLastNext l k).getLast? =
      (l.getLast?).map (fun b => mergeNextSibling b k) := by
  cases l using List.reverseRecOn with
  | nil => exact absurd rfl h
  | append_singleton A b => simp [setLastNext_concat, List.getLast?_concat]

theorem processTextLoop_cons_tree (tree : Bool) (sanitize : String → String)
    (keys : Nat → String) (character : CharacterMetadata) (ty : String)
    (line : String) (rest : List String) (index : Nat) (acc : List Block)
    (b : Block) (h1 : tree = true) (h2 : index ≠ 0)
    (hb : acc[index - 1]? = some b) :
    processTextLoop tree sanitize keys character ty (line :: rest) index acc =
      processTextLoop tree sanitize keys character ty rest (index + 1)
        ((acc.set (index - 1) (mergeNextSibling b (keys index))) ++
          [{ baseConfig (keys index) ty (sanitize line) character with
              prevSibling := some b.key }]) := by
  rw [processTextLoop]
  simp only [if_pos (And.intro h1 h2), hb, mergeNextSibling]

theorem processTextLoop_cons_flat (tree : Bool) (sanitize : String → String)
    (keys : Nat → String) (character : CharacterMetadata) (ty : String)
    (line : String) (rest : List String) (index : Nat) (acc : List Block)
    (h : ¬(tree = true ∧ index ≠ 0)) :
    processTextLoop tree sanitize keys character ty (line :: rest) index acc =
      processTextLoop tree sanitize keys character ty rest (index + 1)
        (acc ++ [baseConfig (keys index) ty (sanitize line) character]) := by
  rw [processTextLoop]
  simp only [if_neg h]

/-- Invariant-based characterisation of the `reduce` loop: running the loop
from index `index` on an accumulator of length `index` whose last block has
key `keys (index - 1)` first patches that last block's `nextSibling` (when
in tree mode with at least one more line) and then appends the closed-form
blocks for the remaining lines. -/
theorem processTextLoop_eq (tree : Bool) (sanitize : String → String)
    (keys : Nat → String) (character : CharacterMetadata) (ty : String)
    (lines : List String) :
    ∀ (index : Nat) (acc : List Block), acc.length = index →
      (∀ b, acc.getLast? = some b → b.key = keys (index - 1)) →
      processTextLoop tree sanitize keys character ty lines index acc =
        (if tree = true ∧ index ≠ 0 ∧ lines ≠ [] then
            setLastNext acc (keys index)
          else acc) ++ newBlocks tree sanitize keys character ty lines index := by
  induction lines with
  | nil =>
    intro index acc hlen hkey
    simp [processTextLoop, newBlocks]
  | cons line rest ih =>
    intro index acc hlen hkey
    by_cases htree : tree = true ∧ index ≠ 0
    · -- tree mode, not the first block: the previous block is patched
      have hpos : 0 < acc.length := by
        rw [hlen]; exact Nat.pos_of_ne_zero htree.2
      have hne : acc ≠ [] := List.ne_nil_of_length_pos hpos
      obtain ⟨b, hb⟩ : ∃ b, acc.getLast? = some b := by
        rw [List.getLast?_eq_getElem? acc]
        exact ⟨_, List.getElem?_eq_getElem (by omega)⟩
      have hb' : acc[index - 1]? = some b := by
        rw [show index - 1 = acc.length - 1 by omega,
          ← List.getLast?_eq_getElem? acc, hb]
      have hbkey : b.key = keys (index - 1) := hkey b hb
      rw [processTextLoop_cons_tree tree sanitize keys character ty line rest
        index acc b htree.1 htree.2 hb']
      have hset : acc.set (index - 1) (mergeNextSibling b (keys index)) =
          setLastNext acc (keys index) := by
        rw [show index - 1 = acc.length - 1 by omega, set_last_eq acc _ hne,
          setLastNext]
        rw [hb]
      rw [hset]
      rw [ih (index + 1) _ (by simp [setLastNext_length, hlen])
        (by
          intro b' hb'
          rw [List.getLast?_concat] at hb'
          obtain rfl := Option.some.inj hb'
          rfl)]
      rcases Decidable.em (rest = []) with hrest | hrest
      · subst hrest
        simp [newBlocks, baseConfig, htree.1, htree.2, hbkey]
      · simp [newBlocks, baseConfig, mergeNextSibling, setLastNext_concat,
          htree.1, htree.2, hrest, hbkey]
    · -- first block, or flat mode: the block is simply appended
      rw [processTextLoop_cons_flat tree sanitize keys character ty line rest
        index acc htree]
      rw [ih (index + 1) _ (by simp [hlen])
        (by
          intro b' hb'
          rw [List.getLast?_concat] at hb'
          obtain rfl := Option.some.inj hb'
          rfl)]
      rcases Decidable.em (tree = true) with ht | ht
      · have h0 : index = 0 := by
          by_contra hno
          exact htree ⟨ht, hno⟩
        subst h0
        have hacc : acc = [] := List.eq_nil_of_length_eq_zero hlen
        subst hacc
        rcases Decidable.em (rest = []) with hrest | hrest
        · subst hrest
          simp [newBlocks, baseConfig, ht]
        · simp [newBlocks, baseConfig, mergeNextSibling, setLastNext_concat,
            setLastNext_singleton, ht, hrest]
      · simp [newBlocks, baseConfig, ht]

/-- `processText` computes exactly the closed-form block list. -/
theorem processText_eq_newBlocks (tree : Bool) (sanitize : String → String)
    (keys : Nat → String) (textBlocks : List String)
    (character : CharacterMetadata) (ty : String) :
    processText tree sanitize keys textBlocks character ty =
      newBlocks tree sanitize keys character ty textBlocks 0 := by
  rw [processText, processTextLoop_eq tree sanitize keys character ty
    textBlocks 0 [] rfl (by intro b hb; cases hb)]
  simp

/-- The block that ends up at position `j` of the closed form (`index` is
the reduce index of the first line of `lines`). -/
def blkAt (tree : Bool) (sanitize : String → String) (keys : Nat → String)
    (character : CharacterMetadata) (ty : String) (lines : List String)
    (index j : Nat) : Block :=
  { baseConfig (keys (index + j)) ty (sanitize (lines.getD j "")) character with
    prevSibling :=
      if tree = true ∧ index + j ≠ 0 then some (keys (index + j - 1)) else none
    nextSibling :=
      if tree = true ∧ j + 1 < lines.length then some (keys (index + j + 1))
      else none }

set_option maxRecDepth 8000 in
theorem newBlocks_getElem? (tree : Bool) (sanitize : String → String)
    (keys : Nat → String) (character : CharacterMetadata) (ty : String) :
    ∀ (lines : List String) (index j : Nat),
      (newBlocks tree sanitize keys character ty lines index)[j]? =
        if j < lines.length then
          some (blkAt tree sanitize keys character ty lines index j)
        else none := by
  intro lines
  induction lines with
  | nil => intro index j; simp [newBlocks]
  | cons line rest ih =>
    intro index j
    cases j with
    | zero =>
      rw [newBlocks, List.getElem?_cons_zero, List.length_cons,
        if_pos (Nat.succ_pos rest.length)]
      have hiff : (0 + 1 < rest.length + 1) = (rest ≠ []) := by
        simp [List.length_pos]
      simp only [blkAt, Nat.add_zero, List.getD_cons_zero, List.length_cons,
        hiff]
    | succ j =>
      rw [newBlocks, List.getElem?_cons_succ, ih (index + 1) j,
        List.length_cons]
      simp only [Nat.add_lt_add_iff_right]
      rcases Decidable.em (j < rest.length) with hj | hj
      · rw [if_pos hj, if_pos hj]
        have harith : index + (j + 1) = index + 1 + j := by omega
        have hlen2 : (j + 1 + 1 < (line :: rest).length) = (j + 1 < rest.length) := by
          simp [List.length_cons]
        simp only [blkAt, List.getD_cons_succ, harith, hlen2]
      · rw [if_neg hj, if_neg hj]

theorem newBlocks_length (tree : Bool) (sanitize : String → String)
    (keys : Nat → String) (character : CharacterMetadata) (ty : String) :
    ∀ (lines : List String) (index : Nat),
      (newBlocks tree sanitize keys character ty lines index).length =
        lines.length := by
  intro lines
  induction lines with
  | nil => intro index; rfl
  | cons line rest ih => intro index; simp [newBlocks, ih (index + 1)]

theorem newBlocks_map_text (tree : Bool) (sanitize : String → String)
    (keys : Nat → String) (character : CharacterMetadata) (ty : String) :
    ∀ (lines : List String) (index : Nat),
      (newBlocks tree sanitize keys character ty lines index).map Block.text =
        lines.map sanitize := by
  intro lines
  induction lines with
  | nil => intro index; rfl
  | cons line rest ih =>
    intro index
    simp [newBlocks, baseConfig, ih (index + 1)]

theorem newBlocks_map_type (tree : Bool) (sanitize : String → String)
    (keys : Nat → String) (character : CharacterMetadata) (ty : String) :
    ∀ (lines : List String) (index : Nat),
      (newBlocks tree sanitize keys character ty lines index).map Block.type =
        List.replicate lines.length ty := by
  intro lines
  induction lines with
  | nil => intro index; rfl
  | cons line rest ih =>
    intro index
    simp [newBlocks, baseConfig, ih (index + 1), List.replicate_succ]

theorem newBlocks_map_characterList (tree : Bool) (sanitize : String → String)
    (keys : Nat → String) (character : CharacterMetadata) (ty : String) :
    ∀ (lines : List String) (index : Nat),
      (newBlocks tree sanitize keys character ty lines index).map
          Block.characterList =
        lines.map (fun line => List.replicate (sanitize line).length character) := by
  intro lines
  induction lines with
  | nil => intro index; rfl
  | cons line rest ih =>
    intro index
    simp [newBlocks, baseConfig, ih (index + 1)]

theorem newBlocks_charList_of_mem (tree : Bool) (sanitize : String → String)
    (keys : Nat → String) (character : CharacterMetadata) (ty : String) :
    ∀ (lines : List String) (index : Nat) (b : Block),
      b ∈ newBlocks tree sanitize keys character ty lines index →
        b.characterList = List.replicate b.text.length character := by
  intro lines
  induction lines with
  | nil => intro index b hb; cases hb
  | cons line rest ih =>
    intro index b hb
    rw [newBlocks] at hb
    rcases List.mem_cons.mp hb with hb | hb
    · subst hb; rfl
    · exact ih (index + 1) b hb

/-- C3: for every input list `textBlocks`, `processText` returns exactly one
block per element of `textBlocks`, in the same order, where each block's
type equals the given `type` argument and each block's text equals
`sanitizeDraftText` applied to the corresponding input line. -/
theorem processText_one_block_per_line (tree : Bool)
    (sanitize : String → String) (keys : Nat → String)
    (textBlocks : List String) (character : CharacterMetadata) (ty : String) :
    (processText tree sanitize keys textBlocks character ty).length =
        textBlocks.length ∧
      (processText tree sanitize keys textBlocks character ty).map Block.text =
        textBlocks.map sanitize ∧
      (processText tree sanitize keys textBlocks character ty).map Block.type =
        List.replicate textBlocks.length ty := by
  rw [processText_eq_newBlocks]
  exact ⟨newBlocks_length tree sanitize keys character ty textBlocks 0,
    newBlocks_map_text tree sanitize keys character ty textBlocks 0,
    newBlocks_map_type tree sanitize keys character ty textBlocks 0⟩

/-- C4: every block produced by `processText` has a `characterList` of the
same length as its (sanitized) text, all of whose entries are the single
`CharacterMetadata` argument. -/
theorem processText_characterList_spec (tree : Bool)
    (sanitize : String → String) (keys : Nat → String)
    (textBlocks : List String) (character : CharacterMetadata) (ty : String) :
    ∀ b ∈ processText tree sanitize keys textBlocks character ty,
      b.characterList.length = b.text.length ∧
        ∀ m ∈ b.characterList, m = character := by
  intro b hb
  rw [processText_eq_newBlocks] at hb
  have h := newBlocks_charList_of_mem tree sanitize keys character ty
    textBlocks 0 b hb
  constructor
  · rw [h, List.length_replicate]
  · intro m hm
    rw [h] at hm
    exact List.eq_of_mem_replicate hm

theorem processText_characterList_spec_witness :
    Block.mk "k" "u" "ab" [⟨[], none⟩, ⟨[], none⟩] none none ∈
        processText false id (fun _ => "k") ["ab"] ⟨[], none⟩ "u" ∧
      ((Block.mk "k" "u" "ab" [⟨[], none⟩, ⟨[], none⟩] none none).characterList.length =
          (Block.mk "k" "u" "ab" [⟨[], none⟩, ⟨[], none⟩] none none).text.length ∧
        ∀ m ∈ (Block.mk "k" "u" "ab" [⟨[], none⟩, ⟨[], none⟩] none none).characterList,
          m = (⟨[], none⟩ : CharacterMetadata)) :=
  ⟨by decide,
    processText_characterList_spec false id (fun _ => "k") ["ab"] ⟨[], none⟩ "u"
      _ (by decide)⟩

/-- C5: in tree mode the blocks returned by `processText` form a consistent
doubly-linked sibling chain: consecutive blocks point at each other's keys,
the first block has no `prevSibling` and the last block has no
`nextSibling`. -/
theorem processText_sibling_chain (sanitize : String → String)
    (keys : Nat → String) (textBlocks : List String)
    (character : CharacterMetadata) (ty : String) :
    (∀ i b b',
        (processText true sanitize keys textBlocks character ty)[i]? = some b →
        (processText true sanitize keys textBlocks character ty)[i + 1]? = some b' →
        b'.prevSibling = some b.key ∧ b.nextSibling = some b'.key) ∧
      (∀ b,
        (processText true sanitize keys textBlocks character ty)[0]? = some b →
        b.prevSibling = none) ∧
      (∀ b,
        (processText true sanitize keys textBlocks character ty).getLast? = some b →
        b.nextSibling = none) := by
  rw [processText_eq_newBlocks]
  refine ⟨?_, ?_, ?_⟩
  · intro i b b' hb hb'
    rw [newBlocks_getElem?] at hb hb'
    rcases Decidable.em (i + 1 < textBlocks.length) with h1 | h1
    · rw [if_pos h1] at hb'
      rw [if_pos (by omega : i < textBlocks.length)] at hb
      obtain rfl := Option.some.inj hb
      obtain rfl := Option.some.inj hb'
      constructor
      · simp [blkAt, baseConfig]
      · simp [blkAt, baseConfig, h1]
    · rw [if_neg h1] at hb'
      exact Option.noConfusion hb'
  · intro b hb
    rw [newBlocks_getElem?] at hb
    rcases Decidable.em (0 < textBlocks.length) with h0 | h0
    · rw [if_pos h0] at hb
      obtain rfl := Option.some.inj hb
      simp [blkAt, baseConfig]
    · rw [if_neg h0] at hb
      exact Option.noConfusion hb
  · intro b hb
    rw [List.getLast?_eq_getElem?,
      newBlocks_length true sanitize keys character ty textBlocks 0,
      newBlocks_getElem?] at hb
    rcases Decidable.em (textBlocks.length - 1 < textBlocks.length) with h | h
    · rw [if_pos h] at hb
      obtain rfl := Option.some.inj hb
      have hno : ¬(textBlocks.length - 1 + 1 < textBlocks.length) := by omega
      simp [blkAt, baseConfig, hno]
    · rw [if_neg h] at hb
      exact Option.noConfusion hb

theorem processText_sibling_chain_witness :
    (processText true id (fun i => if i = 0 then "A" else "B") ["a", "b"]
        ⟨[], none⟩ "u")[0]? =
        some (Block.mk "A" "u" "a" [⟨[], none⟩] none (some "B")) ∧
      (processText true id (fun i => if i = 0 then "A" else "B") ["a", "b"]
          ⟨[], none⟩ "u")[1]? =
        some (Block.mk "B" "u" "b" [⟨[], none⟩] (some "A") none) ∧
      ((Block.mk "B" "u" "b" [⟨[], none⟩] (some "A") none).prevSibling =
          some (Block.mk "A" "u" "a" [⟨[], none⟩] none (some "B")).key ∧
        (Block.mk "A" "u" "a" [⟨[], none⟩] none (some "B")).nextSibling =
          some (Block.mk "B" "u" "b" [⟨[], none⟩] (some "A") none).key) :=
  ⟨by decide, by decide,
    (processText_sibling_chain id (fun i => if i = 0 then "A" else "B")
        ["a", "b"] ⟨[], none⟩ "u").1 0
      (Block.mk "A" "u" "a" [⟨[], none⟩] none (some "B"))
      (Block.mk "B" "u" "b" [⟨[], none⟩] (some "A") none)
      (by decide) (by decide)⟩

/-- C2: the document model is immutable.  In the pure embedding the input
`textBlocks` and `character` cannot be mutated; the theorem states the
record-level content of the claim: every block of the tree-mode result
agrees with the record as constructed at its own reduce step on every field
except `nextSibling` (the later sibling update replaces the accumulator
entry by a new record instead of modifying the constructed one); flat-mode
blocks are exactly the constructed records; and `merge({nextSibling})`
yields a new record, distinct from the one it was derived from whenever the
field actually changes. -/
theorem processText_immutable_update (sanitize : String → String)
    (keys : Nat → String) (textBlocks : List String)
    (character : CharacterMetadata) (ty : String) :
    (∀ i b,
        (processText true sanitize keys textBlocks character ty)[i]? = some b →
        b = { baseConfig (keys i) ty (sanitize (textBlocks.getD i "")) character with
              prevSibling := if i ≠ 0 then some (keys (i - 1)) else none
              nextSibling := b.nextSibling }) ∧
      (∀ i b,
        (processText false sanitize keys textBlocks character ty)[i]? = some b →
        b = baseConfig (keys i) ty (sanitize (textBlocks.getD i "")) character) ∧
      (∀ (b : Block) (k : String), b.nextSibling ≠ some k →
        mergeNextSibling b k ≠ b) := by
  refine ⟨?_, ?_, ?_⟩
  · intro i b hb
    rw [processText_eq_newBlocks, newBlocks_getElem?] at hb
    rcases Decidable.em (i < textBlocks.length) with h | h
    · rw [if_pos h] at hb
      obtain rfl := Option.some.inj hb
      simp [blkAt, baseConfig]
    · rw [if_neg h] at hb
      exact Option.noConfusion hb
  · intro i b hb
    rw [processText_eq_newBlocks, newBlocks_getElem?] at hb
    rcases Decidable.em (i < textBlocks.length) with h | h
    · rw [if_pos h] at hb
      obtain rfl := Option.some.inj hb
      simp [blkAt, baseConfig]
    · rw [if_neg h] at hb
      exact Option.noConfusion hb
  · intro b k hne heq
    exact hne (congrArg Block.nextSibling heq).symm

theorem processText_immutable_update_witness :
    (processText true id (fun i => if i = 0 then "A" else "B") ["a", "b"]
        ⟨[], none⟩ "u")[1]? =
        some (Block.mk "B" "u" "b" [⟨[], none⟩] (some "A") none) ∧
      Block.mk "B" "u" "b" [⟨[], none⟩] (some "A") none =
        { baseConfig ((fun i => if i = 0 then "A" else "B") 1) "u"
            (id (["a", "b"].getD 1 "")) ⟨[], none⟩ with
          prevSibling :=
            if 1 ≠ 0 then some ((fun i => if i = 0 then "A" else "B") (1 - 1))
            else none
          nextSibling :=
            (Block.mk "B" "u" "b" [⟨[], none⟩] (some "A") none).nextSibling } :=
  ⟨by decide,
    (processText_immutable_update id (fun i => if i = 0 then "A" else "B")
        ["a", "b"] ⟨[], none⟩ "u").1 1 _ (by decide)⟩

/-- C1 (counterexample): two calls to `processText` with identical
`textBlocks`, `character` and `type` arguments, whose internal
`generateRandomKey()` calls return different keys, produce different block
keys and different results. -/
theorem processText_equal_args_counterexample :
    (processText false id (fun _ => "keyA") ["x"] ⟨[], none⟩ "unstyled").map
        Block.key ≠
      (processText false id (fun _ => "keyB") ["x"] ⟨[], none⟩ "unstyled").map
        Block.key ∧
      processText false id (fun _ => "keyA") ["x"] ⟨[], none⟩ "unstyled" ≠
        processText false id (fun _ => "keyB") ["x"] ⟨[], none⟩ "unstyled" := by
  constructor
  · decide
  · decide

/-- C1 (amended): `processText` is a pure data transformation up to the
randomly generated block keys: two calls with the same `textBlocks`,
`character` and `type` agree on the number of blocks and on every block's
text, type and character list regardless of the keys the generator
returns, and they return fully equal results (keys included) whenever the
generator returns the same key sequence. -/
theorem processText_deterministic_up_to_keys (tree : Bool)
    (sanitize : String → String) (keys1 keys2 : Nat → String)
    (textBlocks : List String) (character : CharacterMetadata) (ty : String) :
    ((processText tree sanitize keys1 textBlocks character ty).length =
        (processText tree sanitize keys2 textBlocks character ty).length) ∧
      ((processText tree sanitize keys1 textBlocks character ty).map Block.text =
        (processText tree sanitize keys2 textBlocks character ty).map Block.text) ∧
      ((processText tree sanitize keys1 textBlocks character ty).map Block.type =
        (processText tree sanitize keys2 textBlocks character ty).map Block.type) ∧
      ((processText tree sanitize keys1 textBlocks character ty).map
          Block.characterList =
        (processText tree sanitize keys2 textBlocks character ty).map
          Block.characterList) ∧
      (keys1 = keys2 →
        processText tree sanitize keys1 textBlocks character ty =
          processText tree sanitize keys2 textBlocks character ty) := by
  refine ⟨?_, ?_, ?_, ?_, fun h => by rw [h]⟩ <;>
    rw [processText_eq_newBlocks, processText_eq_newBlocks]
  · rw [newBlocks_length, newBlocks_length]
  · rw [newBlocks_map_text, newBlocks_map_text]
  · rw [newBlocks_map_type, newBlocks_map_type]
  · rw [newBlocks_map_characterList, newBlocks_map_characterList]

theorem processText_deterministic_up_to_keys_witness :
    processText false id (fun _ => "k") ["x"] ⟨[], none⟩ "u" =
      processText false id (fun _ => "k") ["x"] ⟨[], none⟩ "u" :=
  (processText_deterministic_up_to_keys false id (fun _ => "k") (fun _ => "k")
      ["x"] ⟨[], none⟩ "u").2.2.2.2 rfl

/-! ## `editOnDragOver` (C7) -/

/-- The editor state visible to `editOnDragOver`: the handler mode (set
through `setMode`), the `_internalDrag` flag, and a placeholder `rest` for
every other piece of editor state, which the handler never touches. -/
structure DraftEditor (α : Type) where
  mode : String
  internalDrag : Bool
  rest : α
deriving DecidableEq, Repr

/-- A synthetic drag event: whether `preventDefault()` has been called,
plus a placeholder for the event's remaining data. -/
structure SyntheticDragEvent (β : Type) where
  defaultPrevented : Bool
  rest : β
deriving DecidableEq, Repr

/-- Modelled from the spec: `DraftEditor.setMode` (not under `src/`)
records the editor's current handler mode. -/
def setMode {α : Type} (editor : DraftEditor α) (m : String) : DraftEditor α :=
  { editor with mode := m }

/-- `e.preventDefault()`: marks the event's default action as prevented. -/
def preventDefault {β : Type} (e : SyntheticDragEvent β) :
    SyntheticDragEvent β :=
  { e with defaultPrevented := true }

/-- `editOnDragOver(editor, e)`: drag behaviour has begun from outside the
editor element.  Sets mode `'drag'` and prevents the event's default
action; the `editor._internalDrag = false` reset is commented out in the
source (fix for issue #1454). -/
def editOnDragOver {α β : Type} (editor : DraftEditor α)
    (e : SyntheticDragEvent β) : DraftEditor α × SyntheticDragEvent β :=
  (setMode editor "drag", preventDefault e)

/-- C7: `editOnDragOver` sets the editor's mode to `'drag'`, prevents the
event's default action, and changes nothing else — in particular it leaves
`_internalDrag` (and all remaining editor and event state) untouched. -/
theorem editOnDragOver_spec {α β : Type} (editor : DraftEditor α)
    (e : SyntheticDragEvent β) :
    (editOnDragOver editor e).1.mode = "drag" ∧
      (editOnDragOver editor e).2.defaultPrevented = true ∧
      (editOnDragOver editor e).1.internalDrag = editor.internalDrag ∧
      (editOnDragOver editor e).1.rest = editor.rest ∧
      (editOnDragOver editor e).2.rest = e.rest :=
  ⟨rfl, rfl, rfl, rfl, rfl⟩

/-! ## `processHTML` (C6) -/

/-- Result type of `convertFromHTMLtoContentBlocks`: the Flow type
`?{contentBlocks: ?Array<BlockNodeRecord>, entityMap: EntityMap}` with an
abstract entity-map type `E`. -/
structure HTMLConversionResult (E : Type) where
  contentBlocks : Option (List Block)
  entityMap : E

/-- `DraftPasteProcessor.processHTML(html, blockRenderMap,
_postProcessInlineTag)`: forwards to `convertFromHTMLtoContentBlocks`
applied to the html string, `getSafeBodyFromHTML`, the block render map
and the inline-tag post-processor.  The converter and its collaborators
live outside `src/` and are taken as parameters. -/
def processHTML {Body RenderMap Post E : Type}
    (convertFromHTMLtoContentBlocks :
      String → (String → Body) → Option RenderMap → Option Post →
        Option (HTMLConversionResult E))
    (getSafeBodyFromHTML : String → Body)
    (blockRenderMap : Option RenderMap)
    (postProcessInlineTag : Option Post) (html : String) :
    Option (HTMLConversionResult E) :=
  convertFromHTMLtoContentBlocks html getSafeBodyFromHTML blockRenderMap
    postProcessInlineTag

/-- C6: `processHTML` returns exactly the result of
`convertFromHTMLtoContentBlocks` on the html string (with
`getSafeBodyFromHTML`, the block render map and the inline-tag
post-processor); that result can be `null`, and it can carry a `null`
`contentBlocks` field, so a caller must handle both absent-result cases. -/
theorem processHTML_spec {Body RenderMap Post E : Type}
    (convertFromHTMLtoContentBlocks :
      String → (String → Body) → Option RenderMap → Option Post →
        Option (HTMLConversionResult E))
    (getSafeBodyFromHTML : String → Body)
    (blockRenderMap : Option RenderMap)
    (postProcessInlineTag : Option Post) (html : String) :
    processHTML convertFromHTMLtoContentBlocks getSafeBodyFromHTML
        blockRenderMap postProcessInlineTag html =
      convertFromHTMLtoContentBlocks html getSafeBodyFromHTML blockRenderMap
        postProcessInlineTag ∧
      (∃ convertN :
          String → (String → Body) → Option RenderMap → Option Post →
            Option (HTMLConversionResult E),
        processHTML convertN getSafeBodyFromHTML blockRenderMap
          postProcessInlineTag html = none) ∧
      (∃ (convertN :
          String → (String → Body) → Option RenderMap → Option Post →
            Option (HTMLConversionResult Unit))
          (r : HTMLConversionResult Unit),
        processHTML convertN getSafeBodyFromHTML blockRenderMap
            postProcessInlineTag html = some r ∧
          r.contentBlocks = none) :=
  ⟨rfl, ⟨fun _ _ _ _ => none, rfl⟩,
    ⟨fun _ _ _ _ => some ⟨none, ()⟩, ⟨none, ()⟩, rfl, rfl⟩⟩

/-! ## `DraftEditorBlock` (C8, C9, C10) -/

/-- Modelled from the spec: `SelectionState` (not under `src/`) exposes its
anchor and focus block keys, its end key and whether the selection has
focus. -/
structure SelectionState where
  anchorKey : String
  focusKey : String
  endKey : String
  hasFocus : Bool
deriving DecidableEq, Repr

/-- `isBlockOnSelectionEdge(selection, key)`: whether a block overlaps
either edge of the `SelectionState`. -/
def isBlockOnSelectionEdge (selection : SelectionState) (key : String) :
    Bool :=
  selection.anchorKey == key || selection.focusKey == key

/-- One leaf of the block's decorator tree: its start and end offsets in
the block text. -/
structure DraftLeaf where
  start : Nat
  «end» : Nat
deriving DecidableEq, Repr, Inhabited

/-- A leaf set of the decorator tree: the decorator key (or `null`), its
start offset, and its leaves. -/
structure LeafSet where
  decoratorKey : Option String
  start : Nat
  leaves : List DraftLeaf
deriving DecidableEq, Repr, Inhabited

/-- A decorator (`DraftDecoratorType`): maps decorator keys to an optional
component and to decorator props; components and props are opaque and
modelled as `Nat` identifiers. -/
structure DraftDecoratorType where
  getComponentForKey : String → Option Nat
  getPropsForKey : String → Nat

/-- The props of `DraftEditorBlock` that its logic reads (`contentState`
is opaque and modelled as a `Nat` identifier; the style props are
forwarded unchanged and omitted).  JavaScript's `!==` reference
comparisons on props are modelled as value inequality. -/
structure Props where
  block : Block
  tree : List LeafSet
  direction : String
  selection : SelectionState
  forceSelection : Bool
  decorator : Option DraftDecoratorType
  contentState : Nat

/-- `DraftEditorBlock.shouldComponentUpdate(nextProps)`. -/
def shouldComponentUpdate (props nextProps : Props) : Bool :=
  props.block != nextProps.block ||
    props.tree != nextProps.tree ||
    props.direction != nextProps.direction ||
    (isBlockOnSelectionEdge nextProps.selection nextProps.block.key &&
      nextProps.forceSelection)

/-- C8: `shouldComponentUpdate` returns `true` iff the next props' block,
tree or direction differs, or the next selection's anchor or focus key
equals the block's key while `forceSelection` is set; hence with identical
block, tree and direction and `forceSelection` false it returns `false`. -/
theorem shouldComponentUpdate_spec (props nextProps : Props) :
    (shouldComponentUpdate props nextProps = true ↔
      (props.block ≠ nextProps.block ∨ props.tree ≠ nextProps.tree ∨
        props.direction ≠ nextProps.direction ∨
        ((nextProps.selection.anchorKey = nextProps.block.key ∨
            nextProps.selection.focusKey = nextProps.block.key) ∧
          nextProps.forceSelection = true))) ∧
      (props.block = nextProps.block → props.tree = nextProps.tree →
        props.direction = nextProps.direction →
        nextProps.forceSelection = false →
        shouldComponentUpdate props nextProps = false) := by
  constructor
  · simp [shouldComponentUpdate, isBlockOnSelectionEdge, bne_iff_ne,
      Bool.or_eq_true, Bool.and_eq_true, beq_iff_eq, or_assoc]
  · intro h1 h2 h3 h4
    simp [shouldComponentUpdate, isBlockOnSelectionEdge, h1, h2, h3, h4]

theorem shouldComponentUpdate_spec_witness :
    shouldComponentUpdate
        (Props.mk (Block.mk "k" "u" "" [] none none) [] "LTR"
          (SelectionState.mk "k" "k" "k" true) false none 0)
        (Props.mk (Block.mk "k" "u" "" [] none none) [] "LTR"
          (SelectionState.mk "k" "k" "k" true) false none 0) = false :=
  (shouldComponentUpdate_spec
      (Props.mk (Block.mk "k" "u" "" [] none none) [] "LTR"
        (SelectionState.mk "k" "k" "k" true) false none 0)
      (Props.mk (Block.mk "k" "u" "" [] none none) [] "LTR"
        (SelectionState.mk "k" "k" "k" true) false none 0)).2 rfl rfl rfl rfl

/-- Modelled from the spec: `DraftOffsetKey.encode(blockKey, ii, jj)` (not
under `src/`) builds the offset key `blockKey-ii-jj`. -/
def encodeOffsetKey (blockKey : String) (ii jj : Nat) : String :=
  blockKey ++ "-" ++ toString ii ++ "-" ++ toString jj

/-- Modelled from the spec: `ContentBlock.getInlineStyleAt(offset)` (not
under `src/`) returns the style set of the character at `offset` (empty
when out of range). -/
def Block.getInlineStyleAt (b : Block) (offset : Nat) : List String :=
  ((b.characterList[offset]?).map CharacterMetadata.style).getD []

/-- Modelled from the spec: `ContentBlock.getEntityAt(offset)` (not under
`src/`) returns the entity key of the character at `offset` (or `null`). -/
def Block.getEntityAt (b : Block) (offset : Nat) : Option String :=
  (b.characterList[offset]?).bind CharacterMetadata.entity

/-- `String.prototype.slice(start, end)` for natural-number arguments: the
characters from `start` (inclusive) to `end` (exclusive), clamped to the
string's length. -/
def jsSlice (s : String) (a b : Nat) : String :=
  String.mk ((s.data.take b).drop a)

/-- The `DraftEditorLeaf` element produced for one leaf: the props the
renderer sets that the embedding tracks (the style-customisation props are
forwarded unchanged and omitted). -/
structure DraftEditorLeaf where
  offsetKey : String
  start : Nat
  text : String
  styleSet : List String
  isLast : Bool
  selection : Option SelectionState
  forceSelection : Bool
deriving DecidableEq, Repr

/-- One entry of the array `_renderChildren` returns: either the bare
leaves of a leaf set, or the leaves wrapped in a decorator component
(component and decorator props are opaque `Nat` identifiers). -/
inductive RenderedChild where
  | plain (leaves : List DraftEditorLeaf)
  | decorated (component : Nat) (decoratorProps : Nat) (contentState : Nat)
      (decoratedText : String) (dir : Option String)
      (entityKey : Option String) (offsetKey : String)
      (leaves : List DraftEditorLeaf)
deriving DecidableEq, Repr

/-- The leaves of a rendered child. -/
def RenderedChild.leaves : RenderedChild → List DraftEditorLeaf
  | .plain ls => ls
  | .decorated _ _ _ _ _ _ _ ls => ls

/-- Whether a rendered child is wrapped in a decorator component. -/
def RenderedChild.isDecorated : RenderedChild → Bool
  | .plain _ => false
  | .decorated _ _ _ _ _ _ _ _ => true

/-- `Immutable.List.map` with the element index (second callback
argument), as used by the two `.map` calls of `_renderChildren`. -/
def mapWithIndex {α β : Type} (f : Nat → α → β) : Nat → List α → List β
  | _, [] => []
  | i, a :: as => f i a :: mapWithIndex f (i + 1) as

theorem mapWithIndex_getElem? {α β : Type} (f : Nat → α → β) :
    ∀ (l : List α) (k i : Nat),
      (mapWithIndex f k l)[i]? = (l[i]?).map (f (k + i)) := by
  intro l
  induction l with
  | nil => intro k i; simp [mapWithIndex]
  | cons a as ih =>
    intro k i
    cases i with
    | zero => simp [mapWithIndex]
    | succ i =>
      rw [mapWithIndex, List.getElem?_cons_succ, ih (k + 1) i,
        List.getElem?_cons_succ, show k + (i + 1) = k + 1 + i from by omega]

/-- The inner `.map` of `_renderChildren`: the `DraftEditorLeaf` elements
for one leaf set (`ii` is the leaf-set index). -/
def renderLeaves (props : Props) (ii : Nat) (leafSet : LeafSet) :
    List DraftEditorLeaf :=
  mapWithIndex
    (fun jj leaf =>
      DraftEditorLeaf.mk (encodeOffsetKey props.block.key ii jj) leaf.start
        (jsSlice props.block.text leaf.start leaf.«end»)
        (props.block.getInlineStyleAt leaf.start)
        (decide (ii = props.tree.length - 1) &&
          decide (jj = leafSet.leaves.length - 1))
        (if isBlockOnSelectionEdge props.selection props.block.key then
          some props.selection
        else none)
        props.forceSelection)
    0 leafSet.leaves

/-- The body of the outer `.map` of `_renderChildren`: render one leaf set,
wrapping its leaves in a decorator component when the leaf set has a
decorator key, the props carry a decorator, and that decorator yields a
component for the key.  `getDirection`/`getHTMLDirIfDifferent` are the
`UnicodeBidi(Direction)` helpers, taken as parameters; `first()`/`last()`
of an empty Immutable list are `undefined`, modelled by the default `0`
offsets (the renderer is only invoked on nonempty leaf lists). -/
def renderLeafSet (getDirection : String → String)
    (getHTMLDirIfDifferent : String → String → Option String)
    (props : Props) (ii : Nat) (leafSet : LeafSet) : RenderedChild :=
  let leaves := renderLeaves props ii leafSet
  match leafSet.decoratorKey with
  | none => RenderedChild.plain leaves
  | some decoratorKey =>
    match props.decorator with
    | none => RenderedChild.plain leaves
    | some decorator =>
      match decorator.getComponentForKey decoratorKey with
      | none => RenderedChild.plain leaves
      | some component =>
        let decoratorProps := decorator.getPropsForKey decoratorKey
        let decoratorOffsetKey := encodeOffsetKey props.block.key ii 0
        let decoratedText := jsSlice props.block.text
          ((leafSet.leaves.head?.map DraftLeaf.start).getD 0)
          ((leafSet.leaves.getLast?.map (fun l => l.«end»)).getD 0)
        RenderedChild.decorated component decoratorProps props.contentState
          decoratedText (getHTMLDirIfDifferent (getDirection decoratedText)
            props.direction)
          (props.block.getEntityAt leafSet.start) decoratorOffsetKey leaves

/-- `DraftEditorBlock._renderChildren()`. -/
def renderChildren (getDirection : String → String)
    (getHTMLDirIfDifferent : String → String → Option String)
    (props : Props) : List RenderedChild :=
  mapWithIndex (renderLeafSet getDirection getHTMLDirIfDifferent props) 0
    props.tree

/-- C9: in `_renderChildren`, every rendered leaf's text equals the block
text sliced from that leaf's start to its end; a leaf set is wrapped in a
decorator component exactly when its decorator key is non-null, the
decorator prop is non-null and the decorator yields a component for that
key (otherwise the bare leaves are returned); and a wrapped leaf set's
`decoratedText` is the block text sliced from the first leaf's start to
the last leaf's end. -/
theorem renderChildren_spec (getDirection : String → String)
    (getHTMLDirIfDifferent : String → String → Option String)
    (props : Props) :
    ∀ (ii : Nat) (rc : RenderedChild) (leafSet : LeafSet),
      (renderChildren getDirection getHTMLDirIfDifferent props)[ii]? =
        some rc →
      props.tree[ii]? = some leafSet →
      ((∀ (jj : Nat) (lf : DraftEditorLeaf) (leaf : DraftLeaf),
          rc.leaves[jj]? = some lf →
          leafSet.leaves[jj]? = some leaf →
          lf.text = jsSlice props.block.text leaf.start leaf.«end») ∧
        (rc.isDecorated = true ↔
          ∃ k d comp, leafSet.decoratorKey = some k ∧
            props.decorator = some d ∧ d.getComponentForKey k = some comp) ∧
        (∀ comp dp cs dt dir ek ok ls,
          rc = RenderedChild.decorated comp dp cs dt dir ek ok ls →
          ∀ hne : leafSet.leaves ≠ [],
            dt = jsSlice props.block.text (leafSet.leaves.head hne).start
              (leafSet.leaves.getLast hne).«end»)) := by
  intro ii rc leafSet hrc hls
  rw [renderChildren, mapWithIndex_getElem? _ props.tree 0 ii, hls] at hrc
  rw [Option.map_some', Nat.zero_add] at hrc
  obtain rfl := Option.some.inj hrc
  have hleafText : ∀ (jj : Nat) (lf : DraftEditorLeaf) (leaf : DraftLeaf),
      (renderLeaves props ii leafSet)[jj]? = some lf →
      leafSet.leaves[jj]? = some leaf →
      lf.text = jsSlice props.block.text leaf.start leaf.«end» := by
    intro jj lf leaf hlf hleaf
    rw [renderLeaves, mapWithIndex_getElem? _ leafSet.leaves 0 jj, hleaf,
      Option.map_some'] at hlf
    obtain rfl := Option.some.inj hlf
    rfl
  have hdt : ∀ hne : leafSet.leaves ≠ [],
      jsSlice props.block.text
          ((leafSet.leaves.head?.map DraftLeaf.start).getD 0)
          ((leafSet.leaves.getLast?.map (fun l => l.«end»)).getD 0) =
        jsSlice props.block.text (leafSet.leaves.head hne).start
          (leafSet.leaves.getLast hne).«end» := by
    intro hne
    rw [List.head?_eq_head hne, List.getLast?_eq_getLast _ hne,
      Option.map_some', Option.map_some', Option.getD_some, Option.getD_some]
  have hplain : ∀ hform : renderLeafSet getDirection getHTMLDirIfDifferent
        props ii leafSet =
        RenderedChild.plain (renderLeaves props ii leafSet),
      (∀ (jj : Nat) (lf : DraftEditorLeaf) (leaf : DraftLeaf),
        (renderLeafSet getDirection getHTMLDirIfDifferent props ii
            leafSet).leaves[jj]? = some lf →
        leafSet.leaves[jj]? = some leaf →
        lf.text = jsSlice props.block.text leaf.start leaf.«end») ∧
        (∀ comp dp cs dt dir ek ok ls,
          renderLeafSet getDirection getHTMLDirIfDifferent props ii leafSet =
            RenderedChild.decorated comp dp cs dt dir ek ok ls →
          ∀ hne : leafSet.leaves ≠ [],
            dt = jsSlice props.block.text (leafSet.leaves.head hne).start
              (leafSet.leaves.getLast hne).«end») := by
    intro hform
    constructor
    · intro jj lf leaf hlf hleaf
      rw [hform] at hlf
      simp only [RenderedChild.leaves] at hlf
      exact hleafText jj lf leaf hlf hleaf
    · intro comp dp cs dt dir ek ok ls heq
      rw [hform] at heq
      exact absurd heq (by simp)
  rcases hdk : leafSet.decoratorKey with _ | k
  · have hform : renderLeafSet getDirection getHTMLDirIfDifferent props ii
        leafSet = RenderedChild.plain (renderLeaves props ii leafSet) := by
      simp only [renderLeafSet, hdk]
    refine ⟨(hplain hform).1, ?_, (hplain hform).2⟩
    rw [hform]
    simp [RenderedChild.isDecorated]
  · rcases hdec : props.decorator with _ | d
    · have hform : renderLeafSet getDirection getHTMLDirIfDifferent props ii
          leafSet = RenderedChild.plain (renderLeaves props ii leafSet) := by
        simp only [renderLeafSet, hdk, hdec]
      refine ⟨(hplain hform).1, ?_, (hplain hform).2⟩
      rw [hform]
      simp [RenderedChild.isDecorated]
    · rcases hcomp : d.getComponentForKey k with _ | component
      · have hform : renderLeafSet getDirection getHTMLDirIfDifferent props
            ii leafSet =
            RenderedChild.plain (renderLeaves props ii leafSet) := by
          simp only [renderLeafSet, hdk, hdec, hcomp]
        refine ⟨(hplain hform).1, ?_, (hplain hform).2⟩
        rw [hform]
        simp [RenderedChild.isDecorated, hcomp]
      · have hform : renderLeafSet getDirection getHTMLDirIfDifferent props
            ii leafSet =
            RenderedChild.decorated component (d.getPropsForKey k)
              props.contentState
              (jsSlice props.block.text
                ((leafSet.leaves.head?.map DraftLeaf.start).getD 0)
                ((leafSet.leaves.getLast?.map (fun l => l.«end»)).getD 0))
              (getHTMLDirIfDifferent
                (getDirection (jsSlice props.block.text
                  ((leafSet.leaves.head?.map DraftLeaf.start).getD 0)
                  ((leafSet.leaves.getLast?.map (fun l => l.«end»)).getD 0)))
                props.direction)
              (props.block.getEntityAt leafSet.start)
              (encodeOffsetKey props.block.key ii 0)
              (renderLeaves props ii leafSet) := by
          simp only [renderLeafSet, hdk, hdec, hcomp]
        refine ⟨?_, ?_, ?_⟩
        · intro jj lf leaf hlf hleaf
          rw [hform] at hlf
          simp only [RenderedChild.leaves] at hlf
          exact hleafText jj lf leaf hlf hleaf
        · rw [hform]
          exact ⟨fun _ => ⟨k, d, component, rfl, rfl, hcomp⟩, fun _ => rfl⟩
        · intro comp dp cs dt dir ek ok ls heq hne
          rw [hform] at heq
          injection heq with h1 h2 h3 h4 h5 h6 h7 h8
          rw [← h4]
          exact hdt hne

/-- Concrete inputs used to exercise `renderChildren`. -/
def demoDecorator : DraftDecoratorType :=
  DraftDecoratorType.mk (fun _ => some 7) (fun _ => 3)

/-- A one-leaf-set decorator tree entry for the demonstration props. -/
def demoLeafSet : LeafSet := LeafSet.mk (some "d") 0 [DraftLeaf.mk 0 1]

/-- Demonstration props: a two-character block with an entity on its first
character, one decorated leaf set, and a selection not touching the
block. -/
def demoProps : Props :=
  Props.mk (Block.mk "k" "u" "ab" [⟨["B"], some "e"⟩, ⟨[], none⟩] none none)
    [demoLeafSet] "LTR" (SelectionState.mk "x" "y" "z" false) false
    (some demoDecorator) 5

theorem renderChildren_spec_witness :
    (renderChildren (fun _ => "LTR") (fun _ _ => none) demoProps)[0]? =
        some (RenderedChild.decorated 7 3 5 "a" none (some "e") "k-0-0"
          [DraftEditorLeaf.mk "k-0-0" 0 "a" ["B"] true none false]) ∧
      demoProps.tree[0]? = some demoLeafSet ∧
      (RenderedChild.decorated 7 3 5 "a" none (some "e") "k-0-0"
          [DraftEditorLeaf.mk "k-0-0" 0 "a" ["B"] true none false]).leaves[0]? =
        some (DraftEditorLeaf.mk "k-0-0" 0 "a" ["B"] true none false) ∧
      demoLeafSet.leaves[0]? = some (DraftLeaf.mk 0 1) ∧
      (DraftEditorLeaf.mk "k-0-0" 0 "a" ["B"] true none false).text =
        jsSlice demoProps.block.text (DraftLeaf.mk 0 1).start
          (DraftLeaf.mk 0 1).«end» :=
  ⟨by decide, by decide, by decide, by decide,
    (renderChildren_spec (fun _ => "LTR") (fun _ _ => none) demoProps 0
        (RenderedChild.decorated 7 3 5 "a" none (some "e") "k-0-0"
          [DraftEditorLeaf.mk "k-0-0" 0 "a" ["B"] true none false])
        demoLeafSet (by decide) (by decide)).1 0
      (DraftEditorLeaf.mk "k-0-0" 0 "a" ["B"] true none false)
      (DraftLeaf.mk 0 1) (by decide) (by decide)⟩

/-! ## `componentDidMount` (C10) -/

/-- `SCROLL_BUFFER` of `DraftEditorBlock.react`. -/
def SCROLL_BUFFER : Int := 10

/-- The geometry `componentDidMount` reads from the DOM: the scroll
position of the scroll parent (`getScrollPosition`), the `y`/`height`
element positions of the block, the editor and the scroll parent
(`getElementPosition`), whether the scroll parent is `window`, and the
viewport height (`getViewportDimensions().height`). -/
structure ScrollGeometry where
  scrollX : Int
  scrollY : Int
  blockY : Int
  blockHeight : Int
  editorY : Int
  isScrParentWindow : Bool
  viewportHeight : Int
  scrollParentY : Int
  scrollParentHeight : Int
deriving DecidableEq, Repr

/-- `scrollParentPosition`: `{y: 0, height: viewportHeight}` when the
scroll parent is `window`, otherwise the element position of the scroll
parent. -/
def scrollParentPosition (g : ScrollGeometry) : Int × Int :=
  if !g.isScrParentWindow then (g.scrollParentY, g.scrollParentHeight)
  else (0, g.viewportHeight)

/-- `blockTop = blockPosition.y - editorPosition.y`. -/
def blockTop (g : ScrollGeometry) : Int := g.blockY - g.editorY

/-- `blockBottom = blockTop + blockHeight`. -/
def blockBottom (g : ScrollGeometry) : Int := blockTop g + g.blockHeight

/-- `visTop = scrollParentPosition.y - editorPosition.y`. -/
def visTop (g : ScrollGeometry) : Int := (scrollParentPosition g).1 - g.editorY

/-- `visHeight = scrollParentPosition.height`. -/
def visHeight (g : ScrollGeometry) : Int := (scrollParentPosition g).2

/-- `visBottom = visTop + visHeight`. -/
def visBottom (g : ScrollGeometry) : Int := visTop g + visHeight g

/-- `scrollDeltaTop = visTop - blockTop`. -/
def scrollDeltaTop (g : ScrollGeometry) : Int := visTop g - blockTop g

/-- `scrollDeltaBottom = visBottom - blockBottom`. -/
def scrollDeltaBottom (g : ScrollGeometry) : Int := visBottom g - blockBottom g

/-- `isBigBlock = blockHeight >= visHeight`. -/
def isBigBlock (g : ScrollGeometry) : Prop := g.blockHeight ≥ visHeight g

instance (g : ScrollGeometry) : Decidable (isBigBlock g) :=
  inferInstanceAs (Decidable (g.blockHeight ≥ visHeight g))

/-- `DraftEditorBlock.componentDidMount()`: returns the new scroll top it
sets (`window.scrollTo` y-coordinate or `Scroll.setTop` value), or `none`
when it does not scroll. -/
def componentDidMount (selection : SelectionState) (block : Block)
    (g : ScrollGeometry) : Option Int :=
  if !selection.hasFocus || selection.endKey != block.key then none
  else if visTop g > blockTop g ∨ (isBigBlock g ∧ blockTop g > visBottom g)
  then some (g.scrollY - SCROLL_BUFFER - scrollDeltaTop g)
  else if ¬isBigBlock g ∧ blockBottom g > visBottom g then
    some (g.scrollY + SCROLL_BUFFER - scrollDeltaBottom g)
  else none

/-- C10: `componentDidMount` performs no scroll adjustment unless the
selection has focus and its end key equals the block's key; when it does
set a new scroll top, the block's top lies above the visible top, or a
block at least as tall as the visible height lies entirely below the
visible bottom, or a smaller block's bottom extends past the visible
bottom — and the value is offset by the constant `SCROLL_BUFFER = 10` in
each case. -/
theorem componentDidMount_spec (selection : SelectionState) (block : Block)
    (g : ScrollGeometry) (t : Int)
    (h : componentDidMount selection block g = some t) :
    (selection.hasFocus = true ∧ selection.endKey = block.key) ∧
      SCROLL_BUFFER = 10 ∧
      ((visTop g > blockTop g ∨
            (g.blockHeight ≥ visHeight g ∧ blockTop g > visBottom g)) ∧
          t = g.scrollY - SCROLL_BUFFER - (visTop g - blockTop g) ∨
        (g.blockHeight < visHeight g ∧ blockBottom g > visBottom g ∧
          t = g.scrollY + SCROLL_BUFFER - (visBottom g - blockBottom g))) := by
  rw [componentDidMount] at h
  rcases Decidable.em
      (!selection.hasFocus || selection.endKey != block.key) with hg | hg
  · rw [if_pos hg] at h
    exact Option.noConfusion h
  · rw [if_neg hg] at h
    have hguard : selection.hasFocus = true ∧ selection.endKey = block.key := by
      constructor
      · cases hfv : selection.hasFocus with
        | true => rfl
        | false => exact absurd (by simp [hfv]) hg
      · by_contra hne
        exact hg (by simp [hne])
    refine ⟨hguard, rfl, ?_⟩
    rcases Decidable.em
        (visTop g > blockTop g ∨ (isBigBlock g ∧ blockTop g > visBottom g)) with
      hc1 | hc1
    · rw [if_pos hc1] at h
      obtain rfl := Option.some.inj h
      exact Or.inl ⟨hc1, rfl⟩
    · rw [if_neg hc1] at h
      rcases Decidable.em (¬isBigBlock g ∧ blockBottom g > visBottom g) with
        hc2 | hc2
      · rw [if_pos hc2] at h
        obtain rfl := Option.some.inj h
        exact Or.inr ⟨lt_of_not_ge hc2.1, hc2.2, rfl⟩
      · rw [if_neg hc2] at h
        exact Option.noConfusion h

theorem componentDidMount_spec_witness :
    componentDidMount (SelectionState.mk "a" "b" "k" true)
        (Block.mk "k" "u" "" [] none none)
        (ScrollGeometry.mk 0 100 5 20 0 false 500 50 200) = some 45 ∧
      ((SelectionState.mk "a" "b" "k" true).hasFocus = true ∧
        (SelectionState.mk "a" "b" "k" true).endKey =
          (Block.mk "k" "u" "" [] none none).key) :=
  ⟨by decide,
    (componentDidMount_spec (SelectionState.mk "a" "b" "k" true)
        (Block.mk "k" "u" "" [] none none)
        (ScrollGeometry.mk 0 100 5 20 0 false 500 50 200) 45 (by decide)).1⟩

end DraftJS
